import Mathlib

/-!
Verification of the text-table rendering engine (`icx/cui.py`).

The development shallowly embeds the layout core: `Column` (FieldSpec),
`RowPrinter` line builders (header, separator, data, spanned, grouped rows)
and `MapPrinter` (PanelPrinter) layout and cell formatting.  Python string
formatting is modelled by `pyFormat`, restricted to the directive shapes the
source actually builds: an optional alignment character, an optional minimum
width and an optional precision, applied to string values (Python pads
strings to the left-aligned default when no alignment character is given).
-/

/-- First `n` characters of `s` (Python slice `s[:n]`, and the effect of a
format precision `.n` on a string). -/
def strTake (s : String) (n : Nat) : String := String.mk (s.toList.take n)

/-- Python slice `s[-n:]`: the last `n` characters, except that `n = 0`
yields the whole string (Python's `s[-0:]` is `s[0:]`). -/
def pySliceLast (s : String) (n : Nat) : String :=
  if n = 0 then s else String.mk (s.toList.drop (s.toList.length - n))

/-- Run of `n` spaces, used for padding. -/
def spaces (n : Nat) : String := String.mk (List.replicate n ' ')

/-- Run of `n` dashes, used for separator lines. -/
def dashes (n : Nat) : String := String.mk (List.replicate n '-')

/-- Alignment of a format directive: the explicit characters `<`, `>`, `^`,
or no alignment character at all (`default`, which Python treats as left
alignment for strings). -/
inductive AlignSpec
  | default
  | left
  | right
  | center
deriving DecidableEq

/-- Python `str.format` for a directive with optional alignment, minimum
width and precision, applied to a string value: the precision truncates to
the first `p` characters, then the width pads (never truncates) according
to the alignment; with no alignment character strings are padded on the
right (left-aligned), and centering puts the smaller half of the padding on
the left, as Python does. -/
def pyFormat (a : AlignSpec) (width : Option Nat) (prec : Option Nat) (s : String) : String :=
  let t := match prec with
    | some p => strTake s p
    | none => s
  match width with
  | none => t
  | some w =>
    if w ≤ t.length then t
    else
      match a with
      | AlignSpec.right => spaces (w - t.length) ++ t
      | AlignSpec.center =>
          spaces ((w - t.length) / 2) ++ t ++ spaces (w - t.length - (w - t.length) / 2)
      | _ => t ++ spaces (w - t.length)

/-- Column (FieldSpec): the value accessor composed with the value-format
directive is modelled as one function `get_str` (the source's
`Column.get_str`); `size` is the effective width and `align` the alignment
derived at construction. -/
structure Column (α : Type) where
  get_str : α → String
  size : Nat
  align : AlignSpec
  name : String

/-- Embeds `Column.__init__`: the effective size is
`max size (len name)`, and the alignment of the derived per-column template
is right when the value-format string contains a `>` character, center when
it contains `^` (checked second), an explicit left otherwise, and the
default (no alignment character) when the format is `None`. -/
def Column.make {α : Type} (gs : α → String) (size : Nat) (format : Option String)
    (name : String) : Column α :=
  { get_str := gs
    size := max size name.length
    align :=
      match format with
      | none => AlignSpec.default
      | some f =>
        if f.toList.contains '>' then AlignSpec.right
        else if f.toList.contains '^' then AlignSpec.center
        else AlignSpec.left
    name := name }

/-- The derived per-column template of `Column.__init__` applied to a cell
string: width and precision are both the effective size, so the cell is
truncated and padded to exactly `size` characters. -/
def colFormat {α : Type} (c : Column α) (s : String) : String :=
  pyFormat c.align (some c.size) (some c.size) s

/-- Python `sep.join(strings)`. -/
def joinSep (sep : String) : List String → String
  | [] => ""
  | [x] => x
  | x :: y :: xs => x ++ sep ++ joinSep sep (y :: xs)

/-- Separator line of `RowPrinter.__init__`. -/
def sep_str {α : Type} (cs : List (Column α)) : String :=
  "+-" ++ joinSep "-+-" (cs.map fun c => dashes c.size) ++ "-+"

/-- Header line of `RowPrinter.__init__`: the data-row template applied to
the column names. -/
def header_line {α : Type} (cs : List (Column α)) : String :=
  "| " ++ joinSep " | " (cs.map fun c => colFormat c c.name) ++ " |"

/-- Line emitted by `RowPrinter.print_data`: the data-row template applied
to each column's `get_str` of the record. -/
def print_data_line {α : Type} (cs : List (Column α)) (a : α) : String :=
  "| " ++ joinSep " | " (cs.map fun c => colFormat c (c.get_str a)) ++ " |"

/-- Slot template built by `print_spanned` and `print_row`: a minimum width
with no precision, so short values are padded and long values kept whole. -/
def padMin (w : Nat) (v : String) : String :=
  pyFormat AlignSpec.default (some w) none v

/-- Loop of `RowPrinter.print_spanned` producing the per-slot minimum
widths: columns before `idx` keep their size, the sizes of the spanned
columns (plus 3 per absorbed separator) accumulate into the slot of the
last spanned column, and later columns keep their size. -/
def spannedWidthsAux (idx size : Nat) : List Nat → Nat → Nat → List Nat
  | [], _, _ => []
  | s :: rest, i, spanned =>
    if i < idx then s :: spannedWidthsAux idx size rest (i + 1) spanned
    else if i < idx + size - 1 then spannedWidthsAux idx size rest (i + 1) (spanned + (s + 3))
    else (s + spanned) :: spannedWidthsAux idx size rest (i + 1) 0

/-- Slot widths of `RowPrinter.print_spanned` for a column list. -/
def print_spanned_widths {α : Type} (cs : List (Column α)) (idx size : Nat) : List Nat :=
  spannedWidthsAux idx size (cs.map fun c => c.size) 0 0

/-- Line emitted by `RowPrinter.print_spanned`. -/
def print_spanned_line {α : Type} (cs : List (Column α)) (idx size : Nat)
    (vs : List String) : String :=
  "| " ++
    joinSep " | " (((print_spanned_widths cs idx size).zip vs).map fun wv => padMin wv.1 wv.2)
    ++ " |"

/-- Loop of `RowPrinter.print_row` producing the per-group minimum widths:
each group of `g` columns consumes the next `g` column sizes and renders one
slot of minimum width `sum (size + 3) - 3`.  `none` models the call failing
with an exception before any line is emitted: an index error when a group
overruns the column list, or a format error on an empty group (whose slot
width would be the invalid `-3`). -/
def rowGroupWidths : List Nat → List Nat → Option (List Nat)
  | _, [] => some []
  | sizes, g :: gs =>
    if g ≤ sizes.length ∧ g ≠ 0 then
      (rowGroupWidths (sizes.drop g) gs).map
        (fun ws => (((sizes.take g).map (fun s => s + 3)).sum - 3) :: ws)
    else none

/-- Line emitted by `RowPrinter.print_row`, or `none` when the call raises
before emitting. -/
def print_row_line {α : Type} (cs : List (Column α)) (groups : List (Nat × String)) :
    Option String :=
  (rowGroupWidths (cs.map fun c => c.size) (groups.map Prod.fst)).map
    (fun ws =>
      "| " ++ joinSep " | " ((ws.zip (groups.map Prod.snd)).map fun wv => padMin wv.1 wv.2)
        ++ " |")

/-- Modelled from the spec's words (amended): each group's slot width is the
sum of the group's column widths plus `3 × (count − 1)`; used to compare the
source's `print_row` width loop against the specified formula. -/
def groupWidthsSpec : List Nat → List Nat → List Nat
  | _, [] => []
  | sizes, g :: gs =>
    ((sizes.take g).sum + 3 * (g - 1)) :: groupWidthsSpec (sizes.drop g) gs

/-- Row/Header classification of a panel field (`Row` vs its subclass
`Header` in the source). -/
inductive Tag
  | row
  | header
deriving DecidableEq

/-- Width scan of `MapPrinter.__init__`: folds `(max_name, max_value,
max_title)` over the field list, Header-tagged fields contributing their
size to `max_title` and Row-tagged fields their name length to `max_name`
and size to `max_value`. -/
def mapMaxWidths {α : Type} (rows : List (Tag × Column α)) : Nat × Nat × Nat :=
  rows.foldl
    (fun acc r =>
      match r.1 with
      | Tag.header => (acc.1, acc.2.1, max acc.2.2 r.2.size)
      | Tag.row => (max acc.1 r.2.name.length, max acc.2.1 r.2.size, acc.2.2))
    (0, 0, 0)

/-- Widths derived by `MapPrinter.__init__`. -/
structure MapLayout where
  max_name : Nat
  max_value : Nat
  max_title : Nat
  max_width : Nat

/-- Embeds the width derivation of `MapPrinter.__init__`, including the
conditional reassignment of `max_value` exactly as the source writes it. -/
def mapLayout {α : Type} (rows : List (Tag × Column α)) : MapLayout :=
  let m := mapMaxWidths rows
  let mw := max m.2.2 (m.2.1 + m.1 + 3)
  { max_name := m.1
    max_value := if m.2.2 < mw then mw - (m.1 + 3) else m.2.1
    max_title := m.2.2
    max_width := mw }

/-- Separator line of `MapPrinter`. -/
def mapSep (L : MapLayout) : String :=
  "+-" ++ dashes L.max_name ++ "-+-" ++ dashes L.max_value ++ "-+"

/-- Title line of `MapPrinter.print_data` for a Header-tagged field: the
value string centered to `max_width` between the borders. -/
def mapTitleLine (L : MapLayout) (vs : String) : String :=
  "| " ++ pyFormat AlignSpec.center (some L.max_width) none vs ++ " |"

/-- Body line of `MapPrinter.print_data` for a left-aligned Row-tagged
field: the name right-justified to `max_name` and the value string
left-justified to `max_value`. -/
def mapBodyLeftLine (L : MapLayout) (name vs : String) : String :=
  "| " ++ pyFormat AlignSpec.right (some L.max_name) none name ++ " | " ++
    pyFormat AlignSpec.left (some L.max_value) none vs ++ " |"

/-- Cell value computed by `MapPrinter.print_data`: the field's own derived
template (width and precision both `size`) is applied to the formatted
value, then the result is sliced — from the back (`[-size:]`) when the
template contains `>`, from the front (`[:size]`) otherwise. -/
def mapValueStr (a : AlignSpec) (size : Nat) (value : String) : String :=
  match a with
  | AlignSpec.right => pySliceLast (pyFormat AlignSpec.right (some size) (some size) value) size
  | AlignSpec.center => strTake (pyFormat AlignSpec.center (some size) (some size) value) size
  | _ => strTake (pyFormat a (some size) (some size) value) size

/-- Alignment behaviour of a template: the default (no alignment character)
pads strings exactly as explicit left alignment does. -/
def AlignSpec.effective : AlignSpec → AlignSpec
  | AlignSpec.default => AlignSpec.left
  | a => a

/-- Modelled from the spec's words: alignment is right if the value format
contains a greater-than character, center if it contains a caret, and left
otherwise, including when the format is absent. -/
def specAlignment (fmt : Option String) : AlignSpec :=
  match fmt with
  | none => AlignSpec.left
  | some f =>
    if f.toList.contains '>' then AlignSpec.right
    else if f.toList.contains '^' then AlignSpec.center
    else AlignSpec.left

/-- First example column of spec section 8.6: name `ID`, width 4, a value
format containing `>` whose standard evaluation renders the integer 7 as
the string `7`. -/
def c5col1 : Column (Int × String) :=
  Column.make (fun p => pyFormat AlignSpec.right none none (toString p.1)) 4 (some ">") "ID"

/-- Second example column of spec section 8.6: name `Status`, width 8, no
value format, accessor returning the second record component. -/
def c5col2 : Column (Int × String) :=
  Column.make (fun p => p.2) 8 none "Status"

/-- Column list of spec section 8.6. -/
def c5cols : List (Column (Int × String)) := [c5col1, c5col2]

/-- Header field of spec section 8.7: width 20, value `SUMMARY`. -/
def ex2header : Column Unit := Column.make (fun _ => "SUMMARY") 20 none ""

/-- Row field of spec section 8.7: name `Count`, width 5. -/
def ex2row : Column Unit := Column.make (fun _ => "42") 5 none "Count"

/-- Field list of spec section 8.7. -/
def ex2rows : List (Tag × Column Unit) := [(Tag.header, ex2header), (Tag.row, ex2row)]

lemma toList_length (s : String) : s.toList.length = s.length := rfl

lemma length_spaces (n : Nat) : (spaces n).length = n := by
  show (List.replicate n ' ').length = n
  simp

lemma length_dashes (n : Nat) : (dashes n).length = n := by
  show (List.replicate n '-').length = n
  simp

lemma length_strTake (s : String) (n : Nat) : (strTake s n).length = min n s.length :=
  List.length_take n s.toList

lemma length_pyFormat_exact (a : AlignSpec) (w : Nat) (s : String) :
    (pyFormat a (some w) (some w) s).length = w := by
  have ht : (strTake s w).length = min w s.length := length_strTake s w
  cases a <;> simp only [pyFormat] <;> split <;>
    (simp_all [String.length_append, length_spaces]; try omega)

lemma length_colFormat {α : Type} (c : Column α) (s : String) :
    (colFormat c s).length = c.size :=
  length_pyFormat_exact c.align c.size s

lemma length_padMin (w : Nat) (v : String) : (padMin w v).length = max w v.length := by
  simp only [padMin, pyFormat]
  split <;> (simp_all [String.length_append, length_spaces]; try omega)

lemma padMin_eq_of_le (w : Nat) (v : String) (h : w ≤ v.length) : padMin w v = v := by
  simp [padMin, pyFormat, h]

lemma pyFormat_default_eq_left (width prec : Option Nat) (s : String) :
    pyFormat AlignSpec.default width prec s = pyFormat AlignSpec.left width prec s := rfl

lemma length_joinSep (sep : String) : ∀ (l : List String), l ≠ [] →
    (joinSep sep l).length = (l.map String.length).sum + sep.length * (l.length - 1)
  | [], h => (h rfl).elim
  | [x], _ => by simp [joinSep]
  | x :: y :: xs, _ => by
    have ih := length_joinSep sep (y :: xs) (by simp)
    simp only [joinSep, String.length_append, List.map_cons, List.sum_cons,
      List.length_cons, Nat.add_sub_cancel] at ih ⊢
    rw [ih, Nat.mul_succ]
    omega

lemma length_bar_line (fields : List String) (h : fields ≠ []) :
    ("| " ++ joinSep " | " fields ++ " |").length =
      (fields.map String.length).sum + 3 * (fields.length - 1) + 4 := by
  have hj := length_joinSep " | " fields h
  have h2 : ("| " : String).length = 2 := rfl
  have h3 : (" | " : String).length = 3 := rfl
  have h4 : (" |" : String).length = 2 := rfl
  simp only [String.length_append, hj, h2, h3, h4]
  omega

lemma length_sep_str {α : Type} (cs : List (Column α)) (h : cs ≠ []) :
    (sep_str cs).length = (cs.map fun c => c.size).sum + 3 * (cs.length - 1) + 4 := by
  have hj := length_joinSep "-+-" (cs.map fun c => dashes c.size) (by simpa using h)
  have hmap : (cs.map fun c => dashes c.size).map String.length = cs.map fun c => c.size := by
    rw [List.map_map]
    exact List.map_congr_left fun c _ => length_dashes c.size
  have h2 : ("+-" : String).length = 2 := rfl
  have h3 : ("-+-" : String).length = 3 := rfl
  have h4 : ("-+" : String).length = 2 := rfl
  simp only [sep_str, String.length_append, hj, hmap, List.length_map, h2, h3, h4]
  omega

lemma length_header_line {α : Type} (cs : List (Column α)) (h : cs ≠ []) :
    (header_line cs).length = (cs.map fun c => c.size).sum + 3 * (cs.length - 1) + 4 := by
  have hb := length_bar_line (cs.map fun c => colFormat c c.name) (by simpa using h)
  have hmap : (cs.map fun c => colFormat c c.name).map String.length = cs.map fun c => c.size := by
    rw [List.map_map]
    exact List.map_congr_left fun c _ => length_colFormat c c.name
  simpa only [header_line, hmap, List.length_map] using hb

lemma length_print_data_line {α : Type} (cs : List (Column α)) (h : cs ≠ []) (a : α) :
    (print_data_line cs a).length = (cs.map fun c => c.size).sum + 3 * (cs.length - 1) + 4 := by
  have hb := length_bar_line (cs.map fun c => colFormat c (c.get_str a)) (by simpa using h)
  have hmap : (cs.map fun c => colFormat c (c.get_str a)).map String.length =
      cs.map fun c => c.size := by
    rw [List.map_map]
    exact List.map_congr_left fun c _ => length_colFormat c (c.get_str a)
  simpa only [print_data_line, hmap, List.length_map] using hb

lemma sum_map_add3 (l : List Nat) : (l.map (fun s => s + 3)).sum = l.sum + 3 * l.length := by
  induction l with
  | nil => simp
  | cons x xs ih =>
    simp only [List.map_cons, List.sum_cons, List.length_cons, ih]
    omega

lemma rowGroupWidths_eq_of (gs : List Nat) : ∀ (sizes : List Nat),
    (∀ g ∈ gs, 1 ≤ g) → gs.sum ≤ sizes.length →
    rowGroupWidths sizes gs = some (groupWidthsSpec sizes gs) := by
  induction gs with
  | nil => intro sizes _ _; rfl
  | cons g gs' ih =>
    intro sizes hpos hsum
    have hg : 1 ≤ g := hpos g (List.mem_cons_self g gs')
    have hsum' : g + gs'.sum ≤ sizes.length := by simpa [List.sum_cons] using hsum
    have hgle : g ≤ sizes.length := by omega
    have ihh := ih (sizes.drop g) (fun x hx => hpos x (List.mem_cons_of_mem g hx))
      (by rw [List.length_drop]; omega)
    have htk : (sizes.take g).length = g := by rw [List.length_take]; omega
    simp only [rowGroupWidths, groupWidthsSpec]
    rw [if_pos ⟨hgle, by omega⟩, ihh, Option.map_some']
    have harith : ((sizes.take g).map (fun s => s + 3)).sum - 3 =
        (sizes.take g).sum + 3 * (g - 1) := by
      rw [sum_map_add3, htk]; omega
    rw [harith]

lemma rowGroupWidths_none_of_over (gs : List Nat) : ∀ (sizes : List Nat),
    sizes.length < gs.sum → rowGroupWidths sizes gs = none := by
  induction gs with
  | nil => intro sizes h; simp [List.sum_nil] at h
  | cons g gs' ih =>
    intro sizes h
    by_cases hc : g ≤ sizes.length ∧ g ≠ 0
    · have ihh := ih (sizes.drop g)
        (by rw [List.length_drop]; simp only [List.sum_cons] at h; omega)
      simp [rowGroupWidths, hc, ihh]
    · simp [rowGroupWidths, hc]

lemma spannedAux_front (idx size : Nat) : ∀ (A rest : List Nat) (i : Nat),
    i + A.length ≤ idx →
    spannedWidthsAux idx size (A ++ rest) i 0 =
      A ++ spannedWidthsAux idx size rest (i + A.length) 0 := by
  intro A
  induction A with
  | nil => intro rest i _; simp
  | cons a A' ih =>
    intro rest i h
    have hi : i < idx := by simp only [List.length_cons] at h; omega
    have ihh := ih rest (i + 1) (by simp only [List.length_cons] at h; omega)
    have e : i + 1 + A'.length = i + (A'.length + 1) := by omega
    rw [e] at ihh
    simp only [List.cons_append, spannedWidthsAux, if_pos hi, List.length_cons]
    exact congrArg (List.cons a) ihh

lemma spannedAux_tail (idx size : Nat) : ∀ (C : List Nat) (j : Nat),
    idx ≤ j → idx + size ≤ j + 1 →
    spannedWidthsAux idx size C j 0 = C := by
  intro C
  induction C with
  | nil => intro j _ _; rfl
  | cons c C' ih =>
    intro j h1 h2
    have hn1 : ¬ j < idx := by omega
    have hn2 : ¬ j < idx + size - 1 := by omega
    have ihh := ih (j + 1) (by omega) (by omega)
    simp [spannedWidthsAux, hn1, hn2, ihh]

lemma spannedAux_mid (idx size : Nat) : ∀ (B C : List Nat) (i spanned : Nat),
    B ≠ [] → B.length ≤ size → i + B.length = idx + size → idx ≤ i →
    spannedWidthsAux idx size (B ++ C) i spanned =
      (spanned + B.sum + 3 * (B.length - 1)) ::
        spannedWidthsAux idx size C (i + B.length) 0 := by
  intro B
  induction B with
  | nil => intro C i spanned h _ _ _; exact (h rfl).elim
  | cons b B' ih =>
    intro C i spanned _ hbs hi hidx
    cases B' with
    | nil =>
      have h1 : ¬ i < idx := by omega
      have h2 : ¬ i < idx + size - 1 := by
        simp only [List.length_cons, List.length_nil] at hi
        omega
      simp only [List.cons_append, List.nil_append, spannedWidthsAux, if_neg h1, if_neg h2,
        List.sum_cons, List.sum_nil, List.length_cons, List.length_nil]
      have e : b + spanned = spanned + (b + 0) + 3 * (0 + 1 - 1) := by omega
      rw [← e]
      simp
    | cons b' B'' =>
      have h1 : ¬ i < idx := by omega
      have h2 : i < idx + size - 1 := by
        simp only [List.length_cons] at hi
        omega
      have ihh := ih C (i + 1) (spanned + (b + 3)) (by simp)
        (by simp only [List.length_cons] at hbs ⊢; omega)
        (by simp only [List.length_cons] at hi ⊢; omega)
        (by omega)
      have e1 : spanned + (b + 3) + (b' :: B'').sum + 3 * ((b' :: B'').length - 1) =
          spanned + (b :: b' :: B'').sum + 3 * ((b :: b' :: B'').length - 1) := by
        simp only [List.sum_cons, List.length_cons]
        omega
      have e2 : i + 1 + (b' :: B'').length = i + (b :: b' :: B'').length := by
        simp only [List.length_cons]
        omega
      rw [e1, e2] at ihh
      rw [List.cons_append]
      conv_lhs => rw [spannedWidthsAux]
      rw [if_neg h1, if_pos h2]
      exact ihh

lemma spannedWidths_eq (sizes : List Nat) (idx size : Nat) (h1 : 1 ≤ size)
    (h2 : idx + size ≤ sizes.length) :
    spannedWidthsAux idx size sizes 0 0 =
      sizes.take idx ++
        ((((sizes.drop idx).take size).sum + 3 * (size - 1)) :: sizes.drop (idx + size)) := by
  have hAlen : (sizes.take idx).length = idx := by rw [List.length_take]; omega
  have hBlen : ((sizes.drop idx).take size).length = size := by
    rw [List.length_take, List.length_drop]; omega
  have hBne : (sizes.drop idx).take size ≠ [] := by
    intro hemp
    rw [hemp] at hBlen
    simp at hBlen
    omega
  have e3 : ((sizes.drop idx).drop size) = sizes.drop (idx + size) := by
    rw [List.drop_drop, Nat.add_comm]
  have hsplit : sizes =
      sizes.take idx ++ (((sizes.drop idx).take size) ++ sizes.drop (idx + size)) := by
    rw [← e3, List.take_append_drop size (sizes.drop idx), List.take_append_drop idx sizes]
  conv_lhs => rw [hsplit]
  rw [spannedAux_front idx size _ _ 0 (by omega)]
  rw [Nat.zero_add, hAlen]
  rw [spannedAux_mid idx size _ _ idx 0 hBne (by omega) (by omega) (by omega)]
  rw [hBlen, spannedAux_tail idx size _ _ (by omega) (by omega)]
  rw [Nat.zero_add]

lemma padded_fields (ws : List Nat) : ∀ (vs : List String), ws.length = vs.length →
    (∀ wv ∈ ws.zip vs, wv.2.length ≤ wv.1) →
    ((ws.zip vs).map fun wv => padMin wv.1 wv.2).map String.length = ws := by
  induction ws with
  | nil => intro vs _ _; simp
  | cons w ws' ih =>
    intro vs hl hfit
    cases vs with
    | nil => simp at hl
    | cons v vs' =>
      have hw : v.length ≤ w := hfit (w, v) (by simp)
      have ihh := ih vs' (by simpa using hl) (fun wv hm => hfit wv (by simp [hm]))
      simp only [List.zip_cons_cons, List.map_cons, ihh, length_padMin]
      rw [Nat.max_eq_left hw]

/-- C1: evaluation of the cell formatting of `MapPrinter.print_data` at the
failing input.  For a right-aligned field of effective width 3 and formatted
value string `abcdef`, the code renders the leftmost 3 characters `abc`, not
the rightmost 3 characters `def` the spec requires: the field's own template
(precision 3) truncates to the leftmost 3 characters before the trailing
`[-size:]` slice runs, so that slice is always a no-op.  Left- and
center-aligned fields also render the leftmost 3 characters, as the spec
says. -/
theorem C1_map_truncation_eval :
    mapValueStr AlignSpec.right 3 "abcdef" = "abc"
    ∧ mapValueStr AlignSpec.right 3 "abcdef" ≠ "def"
    ∧ mapValueStr AlignSpec.left 3 "abcdef" = "abc"
    ∧ mapValueStr AlignSpec.center 3 "abcdef" = "abc"
    ∧ mapValueStr AlignSpec.default 3 "abcdef" = "abc" := by
  decide

/-- C2: evaluation of the width derivation of `MapPrinter.__init__` at the
spec section 8.7 example (one Header field of width 20, one Row field named
`Count` of width 5).  `max_width` is 20 as claimed, but the value column is
not widened: `max_value` stays 5, the separator is 17 characters while
header (title) rows are 24 characters, so the separator and body do not
span `fullWidth` and the line lengths disagree — the reassignment of
`max_value` in the source is a no-op under its guard and does not fire in
the case that needs widening. -/
theorem C2_panel_width_eval :
    (mapLayout ex2rows).max_width = 20
    ∧ (mapLayout ex2rows).max_value = 5
    ∧ mapSep (mapLayout ex2rows) = "+-------+-------+"
    ∧ (mapSep (mapLayout ex2rows)).length = 17
    ∧ (mapBodyLeftLine (mapLayout ex2rows) "Count" (mapValueStr AlignSpec.default 5 "42")).length = 17
    ∧ (mapTitleLine (mapLayout ex2rows) (mapValueStr AlignSpec.default 20 "SUMMARY")).length = 24
    ∧ (mapSep (mapLayout ex2rows)).length ≠
        (mapTitleLine (mapLayout ex2rows) (mapValueStr AlignSpec.default 20 "SUMMARY")).length := by
  decide

/-- C3 counterexample: a printer whose groups sum to the column count, with
one group spanning both columns (widths 4 and 8).  The rendered slot width
is 15 = 4 + 8 + 3 × (2 − 1), not the claimed 4 + 8 + 3 × (2 − 1) − 3 = 12:
the claim's formula subtracts the trailing separator twice. -/
theorem C3_counterexample :
    rowGroupWidths (c5cols.map fun c => c.size) [2] = some [15]
    ∧ print_row_line c5cols [(2, "wide")] = some "| wide            |"
    ∧ (15 : Nat) ≠ 4 + 8 + 3 * (2 - 1) - 3 := by
  decide

/-- C3 (amended): for every `print_row` call whose group span counts are
positive and sum to at most the printer's column count, each group's slot
width equals the sum of that group's column widths plus 3 × (count − 1)
(the source's `sum (width + 3) − 3`), as computed by the spec-side
`groupWidthsSpec`. -/
theorem C3_group_widths (sizes : List Nat) (gs : List Nat)
    (hpos : ∀ g ∈ gs, 1 ≤ g) (hsum : gs.sum ≤ sizes.length) :
    rowGroupWidths sizes gs = some (groupWidthsSpec sizes gs) :=
  rowGroupWidths_eq_of gs sizes hpos hsum

/-- C3 witness: two columns of widths 4 and 8 and a single group spanning
both give the slot width 4 + 8 + 3 × (2 − 1) = 15. -/
theorem C3_group_widths_witness :
    rowGroupWidths [4, 8] [2] = some [15] :=
  (C3_group_widths [4, 8] [2] (by decide) (by decide)).trans (by decide)

/-- C4 counterexample: a two-column printer and a `print_row` call whose
single group spans only one column (spans sum 1 ≠ 2).  No error is raised:
a row is emitted, and it is malformed — 8 characters against the
19-character separator. -/
theorem C4_counterexample :
    print_row_line c5cols [(1, "x")] = some "| x    |"
    ∧ c5cols.length ≠ [(1, "x")].foldl (fun acc gv => acc + gv.1) 0
    ∧ ("| x    |" : String).length ≠ (sep_str c5cols).length := by
  decide

/-- C4 (amended): `print_row` performs no span validation.  When the group
spans sum to more than the column count the call fails with an index error
before any line is emitted (modelled as `none`); when they sum to at most
the column count a row is emitted even if the sum is strictly less, and
such a row is shorter than the separator. -/
theorem C4_overrun_raises {α : Type} (cs : List (Column α)) (groups : List (Nat × String))
    (hover : cs.length < (groups.map Prod.fst).sum) :
    print_row_line cs groups = none := by
  have h := rowGroupWidths_none_of_over (groups.map Prod.fst) (cs.map fun c => c.size)
    (by simpa using hover)
  simp [print_row_line, h]

/-- C4 witness: a group of three columns against the two-column printer
raises before emitting. -/
theorem C4_overrun_raises_witness : print_row_line c5cols [(3, "x")] = none :=
  C4_overrun_raises c5cols [(3, "x")] (by decide)

/-- C5 counterexample: for the spec section 8.6 printer the header is not
the claimed string — the `ID` column's template is right-aligned (its value
format contains a greater-than character), and the header is rendered
through the very same per-column templates, so `ID` is padded on the left,
not on the right. -/
theorem C5_counterexample : header_line c5cols ≠ "| ID   | Status   |" := by
  decide

/-- C5 (amended): for the spec section 8.6 printer, the header right-aligns
the `ID` title; the separator and the data row for the record (7, "ok") are
exactly as claimed. -/
theorem C5_example_rendering :
    header_line c5cols = "|   ID | Status   |"
    ∧ sep_str c5cols = "+------+----------+"
    ∧ print_data_line c5cols (7, "ok") = "|    7 | ok       |" := by
  decide

/-- C6: for every constructed column the effective width stored at
construction equals `max (declared width) (length of name)`, hence is at
least the length of the name.  The width is a plain field of the
constructed record: nothing in the render paths writes it. -/
theorem C6_effective_width {α : Type} (gs : α → String) (w : Nat) (fmt : Option String)
    (name : String) :
    (Column.make gs w fmt name).size = max w name.length
    ∧ name.length ≤ (Column.make gs w fmt name).size :=
  ⟨rfl, le_max_right w name.length⟩

/-- C7: for every non-empty column list, the precomputed separator line,
the precomputed header line, and every data row emitted by `print_data`
have the same total length, namely 4 + (sum of effective widths) +
3 × (column count − 1). -/
theorem C7_structural_alignment {α : Type} (cs : List (Column α)) (h : cs ≠ []) :
    (sep_str cs).length = (cs.map fun c => c.size).sum + 3 * (cs.length - 1) + 4
    ∧ (header_line cs).length = (sep_str cs).length
    ∧ ∀ a : α, (print_data_line cs a).length = (sep_str cs).length := by
  refine ⟨length_sep_str cs h, ?_, fun a => ?_⟩
  · rw [length_header_line cs h, length_sep_str cs h]
  · rw [length_print_data_line cs h a, length_sep_str cs h]

/-- C7 witness: the section 8.6 printer has separator, header and data row
all of length 19 = 4 + (4 + 8) + 3 × (2 − 1). -/
theorem C7_structural_alignment_witness :
    (sep_str c5cols).length = 19
    ∧ (header_line c5cols).length = (sep_str c5cols).length
    ∧ (print_data_line c5cols (7, "ok")).length = (sep_str c5cols).length := by
  have h := C7_structural_alignment c5cols (by simp [c5cols])
  exact ⟨h.1.trans (by decide), h.2.1, h.2.2 (7, "ok")⟩

/-- C9: at construction the alignment of the derived template behaves as
right when the value format contains a greater-than character, center when
it contains a caret, and left otherwise — including when the value format
is absent, where the template has no alignment character but pads exactly
as left alignment does. -/
theorem C9_alignment_derivation {α : Type} (gs : α → String) (w : Nat) (fmt : Option String)
    (name : String) :
    (Column.make gs w fmt name).align.effective = specAlignment fmt
    ∧ ∀ (width prec : Option Nat) (s : String),
        pyFormat (Column.make gs w fmt name).align width prec s =
          pyFormat (Column.make gs w fmt name).align.effective width prec s := by
  constructor
  · cases fmt with
    | none => rfl
    | some f =>
      simp only [Column.make, specAlignment]
      split_ifs <;> rfl
  · intro width prec s
    cases fmt with
    | none => exact pyFormat_default_eq_left width prec s
    | some f =>
      simp only [Column.make]
      split_ifs <;> rfl

/-- C10: the slot templates of `print_spanned` and `print_row` carry a
minimum width but no precision, so they pad short values and never truncate
long ones: a value longer than its slot is emitted in full and the rendered
row is longer than the separator line, as shown for a spanned row and a
grouped row over the section 8.6 printer. -/
theorem C10_min_width_templates :
    (∀ (w : Nat) (v : String), w ≤ v.length → padMin w v = v)
    ∧ print_spanned_line c5cols 0 2 ["this value is too long"] =
        "| this value is too long |"
    ∧ (sep_str c5cols).length < (print_spanned_line c5cols 0 2 ["this value is too long"]).length
    ∧ print_row_line c5cols [(2, "an overlong merged value")] =
        some "| an overlong merged value |"
    ∧ (sep_str c5cols).length < ("| an overlong merged value |" : String).length :=
  ⟨fun w v h => padMin_eq_of_le w v h, by decide, by decide, by decide, by decide⟩

/-- C10 witness: a 3-character value in a 2-wide slot is kept whole. -/
theorem C10_min_width_templates_witness : padMin 2 "abc" = "abc" :=
  C10_min_width_templates.1 2 "abc" (by decide)

/-- C8: for every `print_spanned` call with a positive span count fitting
inside the column list, one value per visual slot and every value fitting
its slot width, the merged slot's width is the sum of the spanned columns'
effective widths plus 3 × (spanCount − 1), all other columns keep their own
width, and the emitted row has exactly the separator line's length. -/
theorem C8_spanned_layout {α : Type} (cs : List (Column α)) (idx size : Nat) (vs : List String)
    (h1 : 1 ≤ size) (h2 : idx + size ≤ cs.length)
    (hlen : vs.length = cs.length - size + 1)
    (hfit : ∀ wv ∈ (print_spanned_widths cs idx size).zip vs, wv.2.length ≤ wv.1) :
    print_spanned_widths cs idx size =
      (cs.map fun c => c.size).take idx ++
        (((((cs.map fun c => c.size).drop idx).take size).sum + 3 * (size - 1)) ::
          (cs.map fun c => c.size).drop (idx + size))
    ∧ (print_spanned_line cs idx size vs).length = (sep_str cs).length := by
  set sizes := cs.map fun c => c.size with hsizes
  have hslen : sizes.length = cs.length := List.length_map cs _
  have h2' : idx + size ≤ sizes.length := by omega
  have hchar : print_spanned_widths cs idx size =
      sizes.take idx ++
        ((((sizes.drop idx).take size).sum + 3 * (size - 1)) :: sizes.drop (idx + size)) :=
    spannedWidths_eq sizes idx size h1 h2'
  refine ⟨hchar, ?_⟩
  have hws_len : (print_spanned_widths cs idx size).length = cs.length - size + 1 := by
    rw [hchar]
    simp only [List.length_append, List.length_cons, List.length_take, List.length_drop, hslen]
    omega
  have hfields := padded_fields (print_spanned_widths cs idx size) vs
    (hws_len.trans hlen.symm) hfit
  set ws := print_spanned_widths cs idx size with hwsdef
  set fields := (ws.zip vs).map fun wv => padMin wv.1 wv.2 with hfdef
  have hflen : fields.length = ws.length := by
    have hc := congrArg List.length hfields
    simpa using hc
  have hfne : fields ≠ [] := by
    intro hemp
    rw [hemp] at hflen
    simp only [List.length_nil] at hflen
    omega
  have hcsne : cs ≠ [] := by
    intro hemp
    rw [hemp] at h2
    simp only [List.length_nil] at h2
    omega
  have hsum : (fields.map String.length).sum = ws.sum := by rw [hfields]
  have hline := length_bar_line fields hfne
  have hsep := length_sep_str cs hcsne
  have e1 : (sizes.take idx).sum + (sizes.drop idx).sum = sizes.sum :=
    List.sum_take_add_sum_drop sizes idx
  have e3 : (sizes.drop idx).drop size = sizes.drop (idx + size) := by
    rw [List.drop_drop]
  have e2 : ((sizes.drop idx).take size).sum + (sizes.drop (idx + size)).sum =
      (sizes.drop idx).sum := by
    rw [← e3]
    exact List.sum_take_add_sum_drop (sizes.drop idx) size
  have hws_sum : ws.sum = sizes.sum + 3 * (size - 1) := by
    rw [hchar]
    simp only [List.sum_append, List.sum_cons]
    omega
  rw [← hsizes] at hsep
  show ("| " ++ joinSep " | " fields ++ " |").length = (sep_str cs).length
  rw [hline, hsep, hsum, hflen, hws_len, hws_sum]
  omega

/-- C8 witness: spanning both columns of the section 8.6 printer merges the
two slots into one of width 4 + 8 + 3 = 15 and keeps the row exactly as
long as the separator. -/
theorem C8_spanned_layout_witness :
    print_spanned_widths c5cols 0 2 = [15]
    ∧ (print_spanned_line c5cols 0 2 ["total"]).length = (sep_str c5cols).length := by
  have h := C8_spanned_layout c5cols 0 2 ["total"] (by decide) (by decide) (by decide) (by decide)
  exact ⟨h.1.trans (by decide), h.2⟩
